import Mathlib

/-!
Shallow embedding of `build.js` (static directory-index generator) and of the
client-side browser script it emits.  Pure functions of the source are
translated to Lean functions; the filesystem is passed in explicitly (the
directory listing as a list of entries, `fs.stat` as an oracle returning
`Option`); the sequential `await` loop that may throw is an `Except`
computation; JS `Array.prototype.sort` (stable, comparator-driven) is
modelled by the stable `List.mergeSort` on the comparator's `≤ 0` relation.
JS property lookup on the `PREVIEW` object literal walks the prototype
chain, so the model also records the property names the literal inherits
from `Object.prototype`.
-/

namespace Build

/-! ### JS string primitives (ASCII fragment, fully computable) -/

/-- Character-level model of `String.prototype.toLowerCase` restricted to the
ASCII letters (the only case mapping the proofs and inputs here exercise). -/
def jsLowerChar (c : Char) : Char :=
  if 65 ≤ c.val ∧ c.val ≤ 90 then Char.ofNat (c.toNat + 32) else c

/-- Model of `s.toLowerCase()` (ASCII fragment). -/
def jsToLowerCase (s : String) : String :=
  ⟨s.data.map jsLowerChar⟩

/-- Whitespace code points recognised by `String.prototype.trim`
(space, tab, LF, VT, FF, CR, NBSP, BOM). -/
def isJsSpace (c : Char) : Bool :=
  c.val = 32 || (9 ≤ c.val && c.val ≤ 13) || c.val = 160 || c.val = 65279

/-- Model of `s.trim()`: strip leading and trailing whitespace. -/
def jsTrim (s : String) : String :=
  ⟨(((s.data.dropWhile isJsSpace).reverse.dropWhile isJsSpace).reverse)⟩

/-- Substring test on character lists, the model of
`String.prototype.includes`. -/
def strContainsL (hay needle : List Char) : Bool :=
  if needle.isPrefixOf hay then true
  else
    match hay with
    | [] => false
    | _ :: t => strContainsL t needle

/-- Model of `s.includes(sub)`. -/
def strContains (s sub : String) : Bool :=
  strContainsL s.data sub.data

/-- Model of `s.startsWith(".")` from the hidden-file filter. -/
def startsWithDot (s : String) : Bool :=
  match s.data with
  | [] => false
  | c :: _ => c = '.'

/-- Characters after the last dot of the list, or `none` when no dot occurs
(helper for the `path.extname` model). -/
def afterLastDot : List Char → Option (List Char)
  | [] => none
  | c :: cs =>
    match afterLastDot cs with
    | some r => some r
    | none => if c = '.' then some cs else none

/-- Model of `path.extname(name)` for directory-entry base names (as returned
by `readdir`, which never yields `"."` or `".."`): the suffix from the last
dot, except that a dot in the first position alone does not start an
extension (`".hidden"` has extension `""`). -/
def jsExtname (s : String) : String :=
  match s.data with
  | [] => ""
  | c0 :: rest =>
    if c0 = '.' then
      match afterLastDot rest with
      | none => ""
      | some r => ⟨'.' :: r⟩
    else
      match afterLastDot (c0 :: rest) with
      | none => ""
      | some r => ⟨'.' :: r⟩

/-- Drop the first `'.'` of the string, the model of `.replace(".", "")`
(string-pattern `replace` rewrites only the first occurrence). -/
def removeFirstDot (s : String) : String :=
  ⟨removeFirstDotL s.data⟩
where
  removeFirstDotL : List Char → List Char
    | [] => []
    | c :: cs => if c = '.' then cs else c :: removeFirstDotL cs

/-- `asExt` from `build.js`:
`path.extname(name).toLowerCase().replace(".", "")`, with `ext || ""`
collapsing to the identity on strings. -/
def asExt (name : String) : String :=
  removeFirstDot (jsToLowerCase (jsExtname name))

/-- `escapeHtml` from `build.js`: replace each of `& < > " '` by its HTML
entity.  (Defined in the source, though the emitted markup never calls it.) -/
def escapeChar (c : Char) : String :=
  if c = '&' then "&amp;"
  else if c = '<' then "&lt;"
  else if c = '>' then "&gt;"
  else if c = Char.ofNat 34 then "&quot;"
  else if c = Char.ofNat 39 then "&#39;"
  else ⟨[c]⟩

/-- `escapeHtml` applied character by character (the regex visits each
matching character once, left to right). -/
def escapeHtml (s : String) : String :=
  String.join (s.data.map escapeChar)

/-! ### Classifier: the `PREVIEW` table and JS property lookup -/

/-- Own properties of the `PREVIEW` object literal in `build.js`. -/
def PREVIEW : List (String × String) :=
  [("pdf", "pdf"),
   ("png", "image"), ("jpg", "image"), ("jpeg", "image"),
   ("webp", "image"), ("gif", "image"), ("svg", "image"),
   ("mp4", "video"), ("webm", "video"),
   ("mp3", "audio"), ("wav", "audio"), ("ogg", "audio"),
   ("html", "html"), ("htm", "html"),
   ("txt", "text"), ("md", "text")]

/-- Property names every object literal inherits from `Object.prototype`;
`PREVIEW[ext]` resolves these through the prototype chain when `ext` is not
an own property. -/
def objectProtoProps : List String :=
  ["constructor", "hasOwnProperty", "isPrototypeOf", "propertyIsEnumerable",
   "toLocaleString", "toString", "valueOf",
   "__defineGetter__", "__defineSetter__", "__lookupGetter__",
   "__lookupSetter__", "__proto__"]

/-- Values the expression `PREVIEW[ext]` can take: `undefined`, one of the
string values of the table, or a value inherited from `Object.prototype`
(a function, or the prototype object itself), identified by property name. -/
inductive JsValue where
  | undef : JsValue
  | str : String → JsValue
  | protoRef : String → JsValue
deriving DecidableEq, Repr

/-- JS member lookup `PREVIEW[ext]`: own property first, then the
prototype chain, then `undefined`. -/
def previewGet (ext : String) : JsValue :=
  match PREVIEW.lookup ext with
  | some v => JsValue.str v
  | none =>
    if objectProtoProps.contains ext then JsValue.protoRef ext else JsValue.undef

/-- JS truthiness of the values `previewGet` produces: `undefined` is falsy,
a string is truthy when non-empty, functions and objects are truthy. -/
def jsTruthy : JsValue → Bool
  | JsValue.undef => false
  | JsValue.str s => !(s == "")
  | JsValue.protoRef _ => true

/-- The expression `PREVIEW[ext] || "link"` from `build.js`. -/
def previewOf (ext : String) : JsValue :=
  if jsTruthy (previewGet ext) then previewGet ext else JsValue.str "link"

/-- The seven preview kinds of the specification's closed enumeration. -/
def previewKinds : List String :=
  ["pdf", "image", "video", "audio", "html", "text", "link"]

/-! ### Scanner: filters, records, and the sequential stat loop -/

/-- The `IGNORE` set of `build.js`: exact names excluded from the scan. -/
def IGNORE : List String :=
  ["build.js", "serve.js", "index.html", ".DS_Store", "Thumbs.db"]

/-- One entry of the `readdir(dir, { withFileTypes: true })` listing:
its base name and whether `isFile()` holds (regular file). -/
structure Dirent where
  name : String
  isFile : Bool
deriving DecidableEq, Repr

/-- Result of a successful `fsp.stat`: size in bytes and the modification
timestamp in epoch milliseconds. -/
structure Stats where
  size : Nat
  mtimeMs : Int
deriving DecidableEq, Repr

/-- One element of the `files` array that `build.js` pushes per kept entry. -/
structure FileRecord where
  name : String
  ext : String
  size : Nat
  mtimeMs : Int
  preview : JsValue
deriving DecidableEq, Repr

/-- The three listing-stage filters of the scan loop:
`e.isFile()`, `!IGNORE.has(e.name)`, `!e.name.startsWith(".")`. -/
def passesFilters (e : Dirent) : Bool :=
  e.isFile && !(IGNORE.contains e.name) && !(startsWithDot e.name)

/-- The record `build.js` pushes for a kept entry with the given stat. -/
def mkRecord (e : Dirent) (st : Stats) : FileRecord :=
  let ext := asExt e.name
  { name := e.name, ext := ext, size := st.size, mtimeMs := st.mtimeMs,
    preview := previewOf ext }

/-- The sequential scan loop of `main`: for each entry passing the filters,
`await fsp.stat(full)`; a failing stat throws, which aborts the whole loop
(there is no try/catch around it), modelled as `Except.error` naming the
entry.  Successful iterations push records in listing order. -/
def scanFiles (entries : List Dirent) (statf : String → Option Stats) :
    Except String (List FileRecord) :=
  match entries with
  | [] => Except.ok []
  | e :: rest =>
    if passesFilters e then
      match statf e.name with
      | none => Except.error e.name
      | some st =>
        match scanFiles rest statf with
        | Except.error msg => Except.error msg
        | Except.ok l => Except.ok (mkRecord e st :: l)
    else
      scanFiles rest statf

/-- The generation-time sort
`files.sort((a, b) => b.mtimeMs - a.mtimeMs)`: a stable sort on the
comparator's `≤ 0` relation, i.e. most recent first. -/
def sortRecords (files : List FileRecord) : List FileRecord :=
  files.mergeSort (fun a b => decide (b.mtimeMs - a.mtimeMs ≤ 0))

/-- Observable outcome of one `node build.js` run: the exit code, the
dataset serialized into `index.html` (`none` when no output file is
written), and the count printed by the success line (`none` when no success
line is printed). -/
structure RunResult where
  exitCode : Nat
  output : Option (List FileRecord)
  reportedCount : Option Nat
deriving DecidableEq, Repr

/-- `main().catch(...)` around the whole pipeline: `listing` is the result
of `readdir` on the scan root (`none` when it throws), `statf` the stat
oracle.  Any exception reaches the top-level catch, which exits with code 1
before `writeFile` runs; on success the sorted dataset is written and the
success line reports `files.length`. -/
def runMain (listing : Option (List Dirent)) (statf : String → Option Stats) :
    RunResult :=
  match listing with
  | none => { exitCode := 1, output := none, reportedCount := none }
  | some entries =>
    match scanFiles entries statf with
    | Except.error _ => { exitCode := 1, output := none, reportedCount := none }
    | Except.ok files =>
      { exitCode := 0, output := some (sortRecords files),
        reportedCount := some files.length }

/-! ### Page emitter: the meta line of each card -/

/-- The template-literal assigned to `meta.innerHTML` in `render`
(`build.js` line 299): the record's `ext` field is interpolated raw;
the size and date strings (`humanSize`, `fmtDate` output) are passed in
already formatted. -/
def metaInnerHtml (f : FileRecord) (sizeStr dateStr : String) : String :=
  "<span class=\"chip\">" ++ (if f.ext == "" then "sem extensão" else f.ext) ++
    "</span> • " ++ sizeStr ++ " • " ++ dateStr

/-! ### Client browser: filter predicates and the six sorts -/

/-- Strict equality `v === k` between a `PREVIEW`-derived value and a string
selection: true exactly when `v` is that string. -/
def jsStrictEqStr (v : JsValue) (k : String) : Bool :=
  match v with
  | JsValue.str s => s == k
  | _ => false

/-- The text-filter lambda of `applyFilters`:
`f.name.toLowerCase().includes(term) || f.ext.toLowerCase().includes(term)`. -/
def textPred (term : String) (f : FileRecord) : Bool :=
  strContains (jsToLowerCase f.name) term || strContains (jsToLowerCase f.ext) term

/-- Whether a record survives the text stage of `applyFilters` for raw query
`qv`: the filter only runs when `term = qv.toLowerCase().trim()` is truthy
(non-empty). -/
def codeTextPass (qv : String) (f : FileRecord) : Bool :=
  let term := jsTrim (jsToLowerCase qv)
  if term == "" then true else textPred term f

/-- The kind-filter ternary of `applyFilters`:
`k === 'image' ? f.preview === 'image' : f.preview === k`. -/
def kindTernary (k : String) (f : FileRecord) : Bool :=
  if k == "image" then jsStrictEqStr f.preview "image" else jsStrictEqStr f.preview k

/-- Whether a record survives the kind stage of `applyFilters` for selection
`k`: the filter only runs when `k` is truthy (the all-types option has
value `""`). -/
def codeKindPass (k : String) (f : FileRecord) : Bool :=
  if k == "" then true else kindTernary k f

/-- The comparator selected by the `switch (sorter)` of `applyFilters`;
`lc` stands for `(x, y) => x.localeCompare(y, 'pt-BR')`.  The default
branch returns 0. -/
def jsComparator (sorter : String) (lc : String → String → Int)
    (a b : FileRecord) : Int :=
  if sorter == "mtime-asc" then a.mtimeMs - b.mtimeMs
  else if sorter == "mtime-desc" then b.mtimeMs - a.mtimeMs
  else if sorter == "name-asc" then lc a.name b.name
  else if sorter == "name-desc" then lc b.name a.name
  else if sorter == "size-asc" then (a.size : Int) - b.size
  else if sorter == "size-desc" then (b.size : Int) - a.size
  else 0

/-- `items.sort(comparator)` of the client: stable sort on the comparator's
`≤ 0` relation. -/
def clientSortList (sorter : String) (lc : String → String → Int)
    (items : List FileRecord) : List FileRecord :=
  items.mergeSort (fun a b => decide (jsComparator sorter lc a b ≤ 0))

/-- `applyFilters` of the client script: trim/lowercase the query, apply the
text filter when the term is non-empty, the kind filter when a kind is
selected, then sort with the selected comparator. -/
def applyFilters (qv kv sorter : String) (lc : String → String → Int)
    (files : List FileRecord) : List FileRecord :=
  let term := jsTrim (jsToLowerCase qv)
  let items := files
  let items := if term == "" then items else items.filter (textPred term)
  let items := if kv == "" then items else items.filter (kindTernary kv)
  clientSortList sorter lc items

/-- Follows the spec's words (§4.5 Filter), for comparison with the code's
text filter: a record passes the text query when the query is empty or the
name or extension contains the query as a case-insensitive substring. -/
def specTextPasses (q : String) (f : FileRecord) : Bool :=
  q == "" ||
    strContains (jsToLowerCase f.name) (jsToLowerCase q) ||
    strContains (jsToLowerCase f.ext) (jsToLowerCase q)

end Build

namespace Build

/-! ### Helper lemmas about the scan loop -/

/-- A passing entry whose stat fails forces the sequential scan loop into the
error case (the first such failure throws; nothing catches it inside the
loop). -/
theorem scan_error_of_stat_failure (entries : List Dirent)
    (statf : String → Option Stats)
    (h : ∃ e ∈ entries, passesFilters e = true ∧ statf e.name = none) :
    ∃ msg, scanFiles entries statf = Except.error msg := by
  induction entries with
  | nil => rcases h with ⟨e, he, _⟩; cases he
  | cons e rest ih =>
    by_cases hp : passesFilters e = true
    · cases hst : statf e.name with
      | none => exact ⟨e.name, by simp [scanFiles, hp, hst]⟩
      | some st =>
        have hrest : ∃ e' ∈ rest, passesFilters e' = true ∧ statf e'.name = none := by
          rcases h with ⟨e', he', hp', hs'⟩
          rcases List.mem_cons.mp he' with rfl | hmem
          · rw [hst] at hs'; cases hs'
          · exact ⟨e', hmem, hp', hs'⟩
        rcases ih hrest with ⟨msg, hmsg⟩
        refine ⟨msg, ?_⟩
        simp [scanFiles, hp, hst, hmsg]
    · have hrest : ∃ e' ∈ rest, passesFilters e' = true ∧ statf e'.name = none := by
        rcases h with ⟨e', he', hp', hs'⟩
        rcases List.mem_cons.mp he' with rfl | hmem
        · exact absurd hp' hp
        · exact ⟨e', hmem, hp', hs'⟩
      rcases ih hrest with ⟨msg, hmsg⟩
      exact ⟨msg, by simp [scanFiles, hp, hmsg]⟩

/-- On a successful scan, the record names are exactly the names of the
entries that pass the three filters, in listing order. -/
theorem scan_names_eq (entries : List Dirent) (statf : String → Option Stats)
    (recs : List FileRecord) (hok : scanFiles entries statf = Except.ok recs) :
    recs.map FileRecord.name = (entries.filter passesFilters).map Dirent.name := by
  induction entries generalizing recs with
  | nil =>
    simp only [scanFiles] at hok
    cases hok
    simp
  | cons e rest ih =>
    by_cases hp : passesFilters e = true
    · cases hst : statf e.name with
      | none => simp [scanFiles, hp, hst] at hok
      | some st =>
        cases hrec : scanFiles rest statf with
        | error m => simp [scanFiles, hp, hst, hrec] at hok
        | ok l =>
          simp only [scanFiles, hp, if_true, hst, hrec] at hok
          cases hok
          simp [mkRecord, List.filter_cons, hp, ih l hrec]
    · simp only [scanFiles, hp] at hok
      rw [if_neg (by simp [hp])] at hok
      simp [List.filter_cons, hp, ih recs hok]

/-! ### C1 -/

/-- Concrete run for the C1 counterexample: one regular file that vanishes
between listing and stat. -/
def vanishedEntry : Dirent := ⟨"a.txt", true⟩

/-- Counterexample to C1 as stated: with a single listed regular file whose
stat fails, the run does NOT continue to an output document with that entry
dropped — it aborts with exit code 1 and writes nothing. -/
theorem stat_failure_aborts_run_cex :
    (runMain (some [vanishedEntry]) (fun _ => none)).exitCode = 1 ∧
    (runMain (some [vanishedEntry]) (fun _ => none)).output = none :=
  ⟨rfl, rfl⟩

/-- C1 amended: during a generation run, if the stat call on any directory
entry that passed the listing-stage filters fails, the whole run aborts via
the top-level catch with exit code 1 and no output document is written (the
entry is not dropped and the run does not continue). -/
theorem stat_failure_aborts_run (entries : List Dirent)
    (statf : String → Option Stats)
    (h : ∃ e ∈ entries, passesFilters e = true ∧ statf e.name = none) :
    (runMain (some entries) statf).exitCode = 1 ∧
    (runMain (some entries) statf).output = none := by
  rcases scan_error_of_stat_failure entries statf h with ⟨msg, hmsg⟩
  simp [runMain, hmsg]

/-- Witness for the amended C1 at a concrete input. -/
theorem stat_failure_aborts_run_witness :
    (∃ e ∈ [Dirent.mk "b.txt" true], passesFilters e = true ∧
      (fun _ : String => (none : Option Stats)) e.name = none) ∧
    ((runMain (some [Dirent.mk "b.txt" true]) (fun _ => none)).exitCode = 1 ∧
      (runMain (some [Dirent.mk "b.txt" true]) (fun _ => none)).output = none) :=
  ⟨⟨⟨"b.txt", true⟩, by decide, by decide, rfl⟩,
    stat_failure_aborts_run [⟨"b.txt", true⟩] (fun _ => none)
      ⟨⟨"b.txt", true⟩, by decide, by decide, rfl⟩⟩

/-! ### C2 -/

/-- Stat oracle for the markup-injection run. -/
def statScr : String → Option Stats := fun _ => some ⟨2048, 0⟩

/-- The record the scanner builds for a file named `payload.<script>`:
its `ext` field is the raw string `<script>`. -/
def recScr : FileRecord :=
  ⟨"payload.<script>", "<script>", 2048, 0, JsValue.str "link"⟩

/-- C2 fails on the code: for the file `payload.<script>`, the record's
`ext` field is interpolated raw into `meta.innerHTML`, so the client-rendered
card markup contains the raw substring `<script>` and not its escaped form
`&lt;script&gt;` (the source defines `escapeHtml` but never calls it). -/
theorem ext_interpolated_unescaped_bug :
    scanFiles [⟨"payload.<script>", true⟩] statScr = Except.ok [recScr] ∧
    strContains (metaInnerHtml recScr "2 KB" "01/01/2024") "<script>" = true ∧
    strContains (metaInnerHtml recScr "2 KB" "01/01/2024")
      (escapeHtml "<script>") = false ∧
    escapeHtml "<script>" = "&lt;script&gt;" :=
  ⟨rfl, rfl, rfl, rfl⟩

/-! ### C3 -/

/-- C3 fails on the code: `PREVIEW[ext]` is a prototype-chain lookup, so the
extension string `constructor` resolves to the inherited (truthy)
`Object.prototype.constructor`, the `|| "link"` fallback never applies, and
the result is none of the seven preview kinds. -/
theorem preview_kind_prototype_leak_bug :
    previewOf "constructor" = JsValue.protoRef "constructor" ∧
    ∀ k ∈ previewKinds, previewOf "constructor" ≠ JsValue.str k :=
  ⟨rfl, by decide⟩

/-! ### C6 -/

/-- Stat oracle for the C6 run. -/
def statCon : String → Option Stats := fun _ => some ⟨7, 3⟩

/-- The record the scanner builds for a file named `x.constructor`. -/
def recCon : FileRecord :=
  ⟨"x.constructor", "constructor", 7, 3, JsValue.protoRef "constructor"⟩

/-- C6 fails on the code: the record produced for the file `x.constructor`
has a non-empty name and a lower-case extension, but its preview field is
the inherited `Object.prototype.constructor` value — not a member of the
seven-kind enumeration (JSON serialization then drops the field). -/
theorem record_invariants_preview_bug :
    scanFiles [⟨"x.constructor", true⟩] statCon = Except.ok [recCon] ∧
    recCon.name ≠ "" ∧
    jsToLowerCase recCon.ext = recCon.ext ∧
    ∀ k ∈ previewKinds, recCon.preview ≠ JsValue.str k :=
  ⟨rfl, by decide, by decide, by decide⟩

end Build

namespace Build

/-! ### C4 -/

/-- C4: on a successful scan of a listing with pairwise-distinct entry
names, an entry contributes exactly one record to the dataset precisely when
it is a regular file, not in the `IGNORE` denylist, and not dot-prefixed;
entries failing any filter never appear. -/
theorem dataset_membership_iff_filters (entries : List Dirent)
    (statf : String → Option Stats) (recs : List FileRecord)
    (hok : scanFiles entries statf = Except.ok recs)
    (hnd : (entries.map Dirent.name).Nodup) :
    ∀ e ∈ entries,
      (List.count e.name (recs.map FileRecord.name) = 1 ↔ passesFilters e = true) ∧
      (passesFilters e = false → e.name ∉ recs.map FileRecord.name) := by
  intro e he
  rw [scan_names_eq entries statf recs hok]
  have hndf : ((entries.filter passesFilters).map Dirent.name).Nodup :=
    ((List.filter_sublist entries).map Dirent.name).nodup hnd
  by_cases hp : passesFilters e = true
  · have hmem : e.name ∈ (entries.filter passesFilters).map Dirent.name :=
      List.mem_map_of_mem Dirent.name (List.mem_filter.mpr ⟨he, hp⟩)
    constructor
    · exact ⟨fun _ => hp, fun _ => List.count_eq_one_of_mem hndf hmem⟩
    · intro hfalse; rw [hp] at hfalse; cases hfalse
  · have hnot : e.name ∉ (entries.filter passesFilters).map Dirent.name := by
      intro hmem
      rcases List.mem_map.mp hmem with ⟨e', he', hname⟩
      rcases List.mem_filter.mp he' with ⟨he'', hp'⟩
      have : e' = e := List.inj_on_of_nodup_map hnd he'' he hname
      rw [this] at hp'
      exact hp hp'
    constructor
    · constructor
      · intro hcount
        exfalso
        have : List.count e.name ((entries.filter passesFilters).map Dirent.name) = 0 :=
          List.count_eq_zero.mpr hnot
        omega
      · intro hp'; exact absurd hp' hp
    · intro _; exact hnot

/-- Listing for the spec's scenario: `report.pdf`, `photo.PNG`, `.hidden`,
the output file itself, and a subdirectory. -/
def entriesW : List Dirent :=
  [⟨"report.pdf", true⟩, ⟨"photo.PNG", true⟩, ⟨".hidden", true⟩,
   ⟨"index.html", true⟩, ⟨"subdir", false⟩]

/-- Stat oracle for the scenario listing. -/
def statW : String → Option Stats := fun n =>
  if n == "report.pdf" then some ⟨2048, 100⟩ else some ⟨500000, 200⟩

/-- The dataset the scanner produces on the scenario listing. -/
def recsW : List FileRecord :=
  [⟨"report.pdf", "pdf", 2048, 100, JsValue.str "pdf"⟩,
   ⟨"photo.PNG", "png", 500000, 200, JsValue.str "image"⟩]

/-- Witness for C4 at the spec's scenario listing, instantiated at the
entry `report.pdf`. -/
theorem dataset_membership_iff_filters_witness :
    scanFiles entriesW statW = Except.ok recsW ∧
    ((List.count "report.pdf" (recsW.map FileRecord.name) = 1 ↔
        passesFilters ⟨"report.pdf", true⟩ = true) ∧
      (passesFilters ⟨"report.pdf", true⟩ = false →
        "report.pdf" ∉ recsW.map FileRecord.name)) :=
  ⟨rfl,
    dataset_membership_iff_filters entriesW statW recsW rfl (by decide)
      ⟨"report.pdf", true⟩ (by decide)⟩

/-! ### C5 -/

/-- C5: a failed root listing aborts the run with exit code 1 and no output
document; a run that exits 0 wrote a dataset and printed a count equal to
its number of records. -/
theorem fatal_listing_and_success_count (entries : List Dirent)
    (statf : String → Option Stats) :
    ((runMain none statf).exitCode = 1 ∧ (runMain none statf).output = none) ∧
    ((runMain (some entries) statf).exitCode = 0 →
      ∃ ds, (runMain (some entries) statf).output = some ds ∧
        (runMain (some entries) statf).reportedCount = some ds.length) := by
  refine ⟨⟨rfl, rfl⟩, ?_⟩
  intro h0
  cases hscan : scanFiles entries statf with
  | error m => simp [runMain, hscan] at h0
  | ok files =>
    refine ⟨sortRecords files, by simp [runMain, hscan], ?_⟩
    simp only [runMain, hscan]
    rw [show (sortRecords files).length = files.length from
      List.length_mergeSort files]

/-- Witness for C5 at the scenario listing (successful run). -/
theorem fatal_listing_and_success_count_witness :
    (runMain (some entriesW) statW).exitCode = 0 ∧
    ∃ ds, (runMain (some entriesW) statW).output = some ds ∧
      (runMain (some entriesW) statW).reportedCount = some ds.length :=
  ⟨rfl, (fatal_listing_and_success_count entriesW statW).2 rfl⟩

/-! ### C7 -/

/-- C7: any dataset written by a run is ordered by modification time
descending — every earlier record's timestamp is at least every later
one's. -/
theorem output_sorted_mtime_desc (entries : List Dirent)
    (statf : String → Option Stats) (ds : List FileRecord)
    (hout : (runMain (some entries) statf).output = some ds) :
    List.Pairwise (fun a b : FileRecord => b.mtimeMs ≤ a.mtimeMs) ds := by
  cases hscan : scanFiles entries statf with
  | error m => simp [runMain, hscan] at hout
  | ok files =>
    simp only [runMain, hscan, Option.some.injEq] at hout
    subst hout
    have hs := @List.sorted_mergeSort FileRecord
      (fun a b : FileRecord => decide (b.mtimeMs - a.mtimeMs ≤ 0))
      (fun a b c hab hbc => by
        simp only [decide_eq_true_eq] at *; omega)
      (fun a b => by
        simp only [Bool.or_eq_true, decide_eq_true_eq]; omega)
      files
    exact hs.imp (fun h => by simp only [decide_eq_true_eq] at h; omega)

/-- Witness for C7 at the scenario listing. -/
theorem output_sorted_mtime_desc_witness :
    List.Pairwise (fun a b : FileRecord => b.mtimeMs ≤ a.mtimeMs)
      (sortRecords recsW) :=
  output_sorted_mtime_desc entriesW statW (sortRecords recsW) rfl

end Build

namespace Build

/-! ### C8 -/

/-- Record for the text-filter counterexample. -/
def recA : FileRecord := ⟨"abc", "", 1, 0, JsValue.str "link"⟩

/-- Counterexample to C8 as stated: for the single-space query `" "` the
code's text filter passes the record named `abc` (the query is trimmed to
empty before filtering), while the spec's predicate — pass iff the query is
empty or is a case-insensitive substring of the name or extension — rejects
it. -/
theorem text_filter_trim_cex :
    codeTextPass " " recA = true ∧ specTextPasses " " recA = false :=
  ⟨rfl, rfl⟩

/-- Strict equality with a string selection holds exactly on that string
value. -/
theorem jsStrictEq_iff (v : JsValue) (k : String) :
    jsStrictEqStr v k = true ↔ v = JsValue.str k := by
  cases v <;> simp [jsStrictEqStr]

/-- C8 amended: a record passes the text filter iff the query, lowercased
and trimmed, is empty or is a substring of the lowercased name or extension;
a record passes the kind filter iff the selection is the all-types value
(encoded `""`) or its preview value is exactly the selected kind string. -/
theorem filter_predicates_amended (q k : String) (f : FileRecord) :
    (codeTextPass q f = true ↔
      (jsTrim (jsToLowerCase q) = "" ∨
        strContains (jsToLowerCase f.name) (jsTrim (jsToLowerCase q)) = true ∨
        strContains (jsToLowerCase f.ext) (jsTrim (jsToLowerCase q)) = true)) ∧
    (codeKindPass k f = true ↔ (k = "" ∨ f.preview = JsValue.str k)) := by
  constructor
  · by_cases h : jsTrim (jsToLowerCase q) = ""
    · simp [codeTextPass, h]
    · simp [codeTextPass, textPred, h, Bool.or_eq_true]
  · by_cases hk : k = ""
    · simp [codeKindPass, hk]
    · have hkt : codeKindPass k f = kindTernary k f := by simp [codeKindPass, hk]
      have h2 : kindTernary k f = jsStrictEqStr f.preview k := by
        by_cases hi : k = "image"
        · subst hi; simp [kindTernary]
        · simp [kindTernary, hi]
      rw [hkt, h2, jsStrictEq_iff]
      simp [hk]

/-! ### C9 -/

/-- Stable sort by a flipped boolean preorder, then reversal, agrees with
the direct sort whenever no two list elements are ties of the preorder. -/
theorem mergeSort_flip_reverse {α : Type} (le : α → α → Bool)
    (htrans : ∀ a b c, le a b = true → le b c = true → le a c = true)
    (htotal : ∀ a b, (le a b || le b a) = true)
    (l : List α)
    (hstrict : l.Pairwise fun a b => ¬(le a b = true ∧ le b a = true)) :
    (l.mergeSort fun a b => le b a).reverse = l.mergeSort le := by
  have hsymm : ∀ {x y : α}, ¬(le x y = true ∧ le y x = true) →
      ¬(le y x = true ∧ le x y = true) := fun h hc => h ⟨hc.2, hc.1⟩
  have hA : (l.mergeSort le).Pairwise (fun a b => le a b = true) :=
    List.sorted_mergeSort htrans htotal l
  have hpermA : (l.mergeSort le).Perm l := List.mergeSort_perm l le
  have hstrictA := (hpermA.pairwise_iff hsymm).mpr hstrict
  have hB : (l.mergeSort fun a b => le b a).Pairwise (fun a b => le b a = true) :=
    List.sorted_mergeSort (fun a b c hab hbc => htrans c b a hbc hab)
      (fun a b => htotal b a) l
  have hBrev : (l.mergeSort fun a b => le b a).reverse.Pairwise
      (fun a b => le a b = true) := by
    rw [List.pairwise_reverse]; exact hB
  have hpermB : (l.mergeSort fun a b => le b a).reverse.Perm l :=
    (List.reverse_perm _).trans (List.mergeSort_perm l _)
  have hstrictB := (hpermB.pairwise_iff hsymm).mpr hstrict
  haveI : IsAntisymm α (fun a b => le a b = true ∧ ¬(le b a = true)) :=
    ⟨fun a b h1 h2 => absurd h1.1 h2.2⟩
  have hsA : (l.mergeSort le).Pairwise
      (fun a b => le a b = true ∧ ¬(le b a = true)) :=
    (hA.and hstrictA).imp (fun h => ⟨h.1, fun hba => h.2 ⟨h.1, hba⟩⟩)
  have hsB : ((l.mergeSort fun a b => le b a).reverse).Pairwise
      (fun a b => le a b = true ∧ ¬(le b a = true)) :=
    (hBrev.and hstrictB).imp (fun h => ⟨h.1, fun hba => h.2 ⟨h.1, hba⟩⟩)
  exact List.eq_of_perm_of_sorted (hpermB.trans hpermA.symm) hsB hsA

/-- C9: each of the client's three descending sorts, followed by a
reversal, equals the corresponding ascending sort whenever the respective
key values are pairwise distinct — the size and modification-time dualities
for any record set with distinct sizes (resp. timestamps), and the name
duality additionally for any locale comparison `lc` that is total,
transitive, and separates distinct names. -/
theorem sort_reverse_duality (lc : String → String → Int)
    (l : List FileRecord) :
    ((l.Pairwise fun a b => a.size ≠ b.size) →
      (clientSortList "size-desc" lc l).reverse =
        clientSortList "size-asc" lc l) ∧
    ((∀ x y, lc x y ≤ 0 ∨ lc y x ≤ 0) →
      (∀ x y z, lc x y ≤ 0 → lc y z ≤ 0 → lc x z ≤ 0) →
      (∀ x y, lc x y ≤ 0 → lc y x ≤ 0 → x = y) →
      (l.Pairwise fun a b => a.name ≠ b.name) →
      (clientSortList "name-desc" lc l).reverse =
        clientSortList "name-asc" lc l) ∧
    ((l.Pairwise fun a b => a.mtimeMs ≠ b.mtimeMs) →
      (clientSortList "mtime-desc" lc l).reverse =
        clientSortList "mtime-asc" lc l) := by
  refine ⟨?_, ?_, ?_⟩
  · intro hsize
    exact mergeSort_flip_reverse
      (fun a b : FileRecord => decide ((a.size : Int) - b.size ≤ 0))
      (fun a b c hab hbc => by
        simp only [decide_eq_true_eq] at *; omega)
      (fun a b => by
        simp only [Bool.or_eq_true, decide_eq_true_eq]; omega)
      l
      (hsize.imp (fun h hc => by
        simp only [decide_eq_true_eq] at hc
        obtain ⟨h1, h2⟩ := hc
        exact h (by omega)))
  · intro hto htr han hname
    exact mergeSort_flip_reverse
      (fun a b : FileRecord => decide (lc a.name b.name ≤ 0))
      (fun a b c hab hbc => by
        simp only [decide_eq_true_eq] at *
        exact htr _ _ _ hab hbc)
      (fun a b => by
        simp only [Bool.or_eq_true, decide_eq_true_eq]
        exact hto _ _)
      l
      (hname.imp (fun h hc => by
        simp only [decide_eq_true_eq] at hc
        exact h (han _ _ hc.1 hc.2)))
  · intro hmtime
    exact mergeSort_flip_reverse
      (fun a b : FileRecord => decide (a.mtimeMs - b.mtimeMs ≤ 0))
      (fun a b c hab hbc => by
        simp only [decide_eq_true_eq] at *; omega)
      (fun a b => by
        simp only [Bool.or_eq_true, decide_eq_true_eq]; omega)
      l
      (hmtime.imp (fun h hc => by
        simp only [decide_eq_true_eq] at hc
        obtain ⟨h1, h2⟩ := hc
        exact h (by omega)))

/-- A concrete total, transitive, separating comparison standing in for
`localeCompare` in the C9 witness: lexicographic string order. -/
def lcStd (x y : String) : Int :=
  if x < y then -1 else if y < x then 1 else 0

/-- `lcStd x y ≤ 0` is the non-strict string order. -/
theorem lcStd_le_iff (x y : String) : lcStd x y ≤ 0 ↔ x ≤ y := by
  unfold lcStd
  rcases lt_trichotomy x y with h | h | h
  · rw [if_pos h]
    simp [h.le]
  · subst h
    rw [if_neg (lt_irrefl x), if_neg (lt_irrefl x)]
    simp
  · rw [if_neg (asymm h), if_pos h]
    constructor
    · intro h10; omega
    · intro hxy; exact absurd hxy (not_le.mpr h)

/-- `lcStd` is total. -/
theorem lcStd_total : ∀ x y, lcStd x y ≤ 0 ∨ lcStd y x ≤ 0 := by
  intro x y
  rw [lcStd_le_iff, lcStd_le_iff]
  exact le_total x y

/-- `lcStd` is transitive. -/
theorem lcStd_trans : ∀ x y z, lcStd x y ≤ 0 → lcStd y z ≤ 0 → lcStd x z ≤ 0 := by
  intro x y z hxy hyz
  rw [lcStd_le_iff] at hxy hyz ⊢
  exact le_trans hxy hyz

/-- `lcStd` separates distinct strings. -/
theorem lcStd_antisym : ∀ x y, lcStd x y ≤ 0 → lcStd y x ≤ 0 → x = y := by
  intro x y h1 h2
  rw [lcStd_le_iff] at h1 h2
  exact le_antisymm h1 h2

/-- Two records with pairwise-distinct sizes, names and timestamps. -/
def recs9 : List FileRecord :=
  [⟨"a", "", 1, 10, JsValue.str "link"⟩, ⟨"b", "", 2, 5, JsValue.str "link"⟩]

/-- Witness for C9 at a concrete comparison and record set, discharging
each conjunct's hypotheses separately. -/
theorem sort_reverse_duality_witness :
    (clientSortList "size-desc" lcStd recs9).reverse =
      clientSortList "size-asc" lcStd recs9 ∧
    (clientSortList "name-desc" lcStd recs9).reverse =
      clientSortList "name-asc" lcStd recs9 ∧
    (clientSortList "mtime-desc" lcStd recs9).reverse =
      clientSortList "mtime-asc" lcStd recs9 :=
  ⟨(sort_reverse_duality lcStd recs9).1 (by decide),
    (sort_reverse_duality lcStd recs9).2.1 lcStd_total lcStd_trans
      lcStd_antisym (by decide),
    (sort_reverse_duality lcStd recs9).2.2 (by decide)⟩

/-! ### C10 -/

/-- C10: for every non-empty kind selection, the special-cased ternary of
the kind filter equals the plain strict-equality predicate. -/
theorem kind_ternary_equiv_plain_eq (k : String) (f : FileRecord)
    (hk : k ≠ "") :
    kindTernary k f = jsStrictEqStr f.preview k := by
  by_cases hi : k = "image"
  · subst hi
    simp [kindTernary]
  · simp [kindTernary, hi]

/-- Record for the C10 witness. -/
def recK : FileRecord := ⟨"k.png", "png", 9, 1, JsValue.str "image"⟩

/-- Witness for C10 at the selection `image`. -/
theorem kind_ternary_equiv_plain_eq_witness :
    ("image" : String) ≠ "" ∧
    kindTernary "image" recK = jsStrictEqStr recK.preview "image" :=
  ⟨by decide, kind_ternary_equiv_plain_eq "image" recK (by decide)⟩

end Build
